import Mathlib

/-!
Verification of the release-version calculator in
actions/smart-release-please/rc_align.py.

Strings are modelled as Lean strings (lists of characters); Python integers
are Nat (all quantities here are non-negative); code that can raise is
modelled with Except; the results of the external git queries are supplied
by an environment record, mirroring how the script consumes the stripped
stdout of run_git_command.  The regex character class backslash-d is
modelled as the Unicode decimal digits (general category Nd, whose code
points come in blocks of ten; the block starts are tabulated below), the
dollar anchor of the two semver regexes matches at the end of the input or
just before one newline that ends the input, and multiline anchoring of
the caret is modelled by matching at the start of each newline-separated
line.
-/

namespace RcAlign

/-! ## Rendering of integers (Python str inside f-strings) -/

/-- Start code points of the blocks of ten consecutive Unicode decimal
digits (general category Nd, Unicode 15.0): the Nd digit of value k in a
block is blockStart + k.  Python's backslash-d matches exactly these
characters on a str, and int() converts each by that value. -/
def ndBlockStarts : List Nat :=
  [0x0030, 0x0660, 0x06F0, 0x07C0, 0x0966, 0x09E6, 0x0A66, 0x0AE6,
   0x0B66, 0x0BE6, 0x0C66, 0x0CE6, 0x0D66, 0x0DE6, 0x0E50, 0x0ED0,
   0x0F20, 0x1040, 0x1090, 0x17E0, 0x1810, 0x1946, 0x19D0, 0x1A80,
   0x1A90, 0x1B50, 0x1BB0, 0x1C40, 0x1C50, 0xA620, 0xA8D0, 0xA900,
   0xA9D0, 0xA9F0, 0xAA50, 0xABF0, 0xFF10, 0x104A0, 0x10D30, 0x11066,
   0x110F0, 0x11136, 0x111D0, 0x112F0, 0x11450, 0x114D0, 0x11650,
   0x116C0, 0x11730, 0x118E0, 0x11950, 0x11C50, 0x11D50, 0x11DA0,
   0x11F50, 0x16A60, 0x16AC0, 0x16B50, 0x1D7CE, 0x1D7D8, 0x1D7E2,
   0x1D7EC, 0x1D7F6, 0x1E140, 0x1E2F0, 0x1E4F0, 0x1E950, 0x1FBF0]

/-- Whether a character is a Unicode decimal digit: what backslash-d
matches on a Python str. -/
def pyIsDigit (c : Char) : Bool :=
  ndBlockStarts.any fun s => decide (s ≤ c.toNat) && decide (c.toNat < s + 10)

/-- The value of a Unicode decimal digit, its offset in its block of ten:
what int() uses for each digit character. -/
def pyDigitVal (c : Char) : Nat :=
  match ndBlockStarts.find? (fun s => decide (s ≤ c.toNat) && decide (c.toNat < s + 10)) with
  | some s => c.toNat - s
  | none => 0

/-- Decimal value of a list of decimal digit characters, most significant
first.  Models what int() computes on the digit groups captured by the
regexes in parse_semver. -/
def digitsVal (ds : List Char) : Nat :=
  ds.foldl (fun a c => 10 * a + pyDigitVal c) 0

/-- Fuelled decimal rendering of a natural number.  The fuel only guards
the recursion; renderNat supplies enough of it. -/
def renderNatAux : Nat → Nat → List Char
  | 0, _ => []
  | fuel + 1, n =>
    if n < 10 then [Nat.digitChar n]
    else renderNatAux fuel (n / 10) ++ [Nat.digitChar (n % 10)]

/-- Decimal rendering of a natural number, as produced by str(int) inside
the Python f-strings. -/
def renderNat (n : Nat) : List Char := renderNatAux (n + 1) n

/-- String form of renderNat. -/
def pyStr (n : Nat) : String := String.mk (renderNat n)

/-! ## Version Calculator -/

/-- Embedding of calculate_next_version from rc_align.py: the pure
version-bump arithmetic combining the parsed baseline, the commit depth and
the impact flags. -/
def calculate_next_version (major minor patch rc depth : Nat)
    (is_breaking is_feat from_stable : Bool) : String :=
  if is_breaking then
    pyStr (major + 1) ++ ".0.0-rc." ++ pyStr depth
  else if is_feat then
    if from_stable || decide (patch > 0) then
      pyStr major ++ "." ++ pyStr (minor + 1) ++ ".0-rc." ++ pyStr depth
    else
      pyStr major ++ "." ++ pyStr minor ++ "." ++ pyStr patch ++ "-rc." ++ pyStr (rc + depth)
  else if from_stable then
    pyStr major ++ "." ++ pyStr minor ++ "." ++ pyStr (patch + 1) ++ "-rc." ++ pyStr depth
  else
    pyStr major ++ "." ++ pyStr minor ++ "." ++ pyStr patch ++ "-rc." ++ pyStr (rc + depth)

/-! ## Semver Parser

The two anchored regexes of parse_semver are deterministic: every digit
group is followed by a non-digit literal (a dot, a dash, or the end of the
string), so a match exists exactly when greedy maximal-munch parsing
succeeds.  The parser below is that maximal-munch reading. -/

/-- Splits a maximal run of leading decimal digits off a character
list. -/
def splitDigits : List Char → List Char × List Char
  | [] => ([], [])
  | c :: cs =>
    if pyIsDigit c then (c :: (splitDigits cs).1, (splitDigits cs).2)
    else ([], c :: cs)

/-- Consumes one expected literal character. -/
def expectChar (c : Char) : List Char → Option (List Char)
  | [] => none
  | x :: xs => if x = c then some xs else none

/-- Consumes an expected literal character sequence. -/
def expectSeq (pat cs : List Char) : Option (List Char) :=
  if pat.isPrefixOf cs then some (cs.drop pat.length) else none

/-- Consumes one-or-more digits (a backslash-d-plus group) and returns
their value. -/
def parseNum (cs : List Char) : Option (Nat × List Char) :=
  if (splitDigits cs).1 = [] then none
  else some (digitsVal (splitDigits cs).1, (splitDigits cs).2)

/-- The dollar anchor of the two semver regexes (compiled without the
MULTILINE flag): it matches at the very end of the input or just before
one newline that ends the input. -/
def dollarAtEnd (r : List Char) : Bool :=
  match r with
  | [] => true
  | c :: rest => c == '\n' && rest.isEmpty

/-- The release-candidate regex of parse_semver, anchored at both ends:
v, three dot-separated digit groups, a -rc. marker, a final digit group
and the dollar anchor. -/
def matchRc (cs : List Char) : Option (Nat × Nat × Nat × Nat) :=
  (expectChar 'v' cs).bind fun r0 =>
  (parseNum r0).bind fun p1 =>
  (expectChar '.' p1.2).bind fun r1 =>
  (parseNum r1).bind fun p2 =>
  (expectChar '.' p2.2).bind fun r2 =>
  (parseNum r2).bind fun p3 =>
  (expectSeq ['-', 'r', 'c', '.'] p3.2).bind fun r3 =>
  (parseNum r3).bind fun p4 =>
  if dollarAtEnd p4.2 then some (p1.1, p2.1, p3.1, p4.1) else none

/-- The stable regex of parse_semver, anchored at both ends: v, three
dot-separated digit groups and the dollar anchor. -/
def matchStable (cs : List Char) : Option (Nat × Nat × Nat) :=
  (expectChar 'v' cs).bind fun r0 =>
  (parseNum r0).bind fun p1 =>
  (expectChar '.' p1.2).bind fun r1 =>
  (parseNum r1).bind fun p2 =>
  (expectChar '.' p2.2).bind fun r2 =>
  (parseNum r2).bind fun p3 =>
  if dollarAtEnd p3.2 then some (p1.1, p2.1, p3.1) else none

/-- Embedding of parse_semver from rc_align.py: absent or empty input hits
the falsiness guard, then the release-candidate regex is tried, then the
stable regex, and any failure falls back to the zero sentinel. -/
def parse_semver (tag : Option String) : Nat × Nat × Nat × Nat :=
  match tag with
  | none => (0, 0, 0, 0)
  | some t =>
    match t.data with
    | [] => (0, 0, 0, 0)
    | c :: cs =>
      match matchRc (c :: cs) with
      | some r => r
      | none =>
        match matchStable (c :: cs) with
        | some p => (p.1, p.2.1, p.2.2, 0)
        | none => (0, 0, 0, 0)

/-- A non-empty, all-digit character group: what one backslash-d-plus
capture of the spec shapes stands for. -/
def DigitStr (d : List Char) : Prop := d ≠ [] ∧ ∀ c ∈ d, pyIsDigit c = true

/-- The claimed well-formed release-candidate tag shape
v M . N . P -rc. R with integer components. -/
def RcShape (cs : List Char) : Prop :=
  ∃ a b c d, DigitStr a ∧ DigitStr b ∧ DigitStr c ∧ DigitStr d ∧
    cs = 'v' :: (a ++ '.' :: (b ++ '.' :: (c ++ '-' :: 'r' :: 'c' :: '.' :: d)))

/-- The claimed well-formed stable tag shape v M . N . P with integer
components. -/
def StableShape (cs : List Char) : Prop :=
  ∃ a b c, DigitStr a ∧ DigitStr b ∧ DigitStr c ∧
    cs = 'v' :: (a ++ '.' :: (b ++ '.' :: c))

/-- What the release-candidate regex accepts through its dollar anchor:
the claimed shape itself, or the claimed shape followed by one trailing
newline. -/
def RcShapeRelaxed (cs : List Char) : Prop :=
  RcShape cs ∨ ∃ core, RcShape core ∧ cs = core ++ ['\n']

/-- What the stable regex accepts through its dollar anchor. -/
def StableShapeRelaxed (cs : List Char) : Prop :=
  StableShape cs ∨ ∃ core, StableShape core ∧ cs = core ++ ['\n']

/-- The canonical decimal formatting of a release-candidate tag
v M . N . P -rc. R, input of the round-trip claim. -/
def canonicalRcTag (M N P R : Nat) : String :=
  String.mk ('v' :: (renderNat M ++ '.' :: (renderNat N ++ '.' ::
    (renderNat P ++ '-' :: 'r' :: 'c' :: '.' :: renderNat R))))

/-! ## Text scanning shared by the Impact Classifier and Depth Counter -/

/-- Python str.split on a newline: the corpus as a list of lines. -/
def pyLines : List Char → List (List Char)
  | [] => [[]]
  | c :: cs =>
    if c = '\n' then [] :: pyLines cs
    else
      match pyLines cs with
      | [] => [[c]]
      | l :: ls => (c :: l) :: ls

/-- Substring occurrence test, modelling the Python in operator on
strings. -/
def occurs (pat : List Char) : List Char → Bool
  | [] => pat.isEmpty
  | c :: cs => pat.isPrefixOf (c :: cs) || occurs pat cs

/-- After a conventional-commit keyword, the regexes accept either the bare
suffix or a parenthesised scope followed by the suffix.  With regex
backtracking, the scoped alternative succeeds exactly when a close-paren
directly followed by the suffix occurs somewhere after the open paren. -/
def afterOptScope (suf r : List Char) : Bool :=
  suf.isPrefixOf r ||
    (match r with
     | c :: r2 => c == '(' && occurs (')' :: suf) r2
     | [] => false)

/-- Start-of-line match of keyword, optional scope, and suffix: the common
shape of the three anchored commit-classification regexes. -/
def matchesAt (kw suf l : List Char) : Bool :=
  kw.isPrefixOf l && afterOptScope suf (l.drop kw.length)

/-- Declarative reading of matchesAt, stated the way the spec describes the
regexes: the line is the keyword, then either the suffix directly or an
arbitrary parenthesised scope and the suffix, then anything. -/
def MatchesAtP (kw suf l : List Char) : Prop :=
  ∃ r, l = kw ++ r ∧
    ((∃ t, r = suf ++ t) ∨ ∃ m t, r = '(' :: (m ++ ')' :: (suf ++ t)))

/-! ## Impact Classifier -/

/-- The alternation of the breaking-change regex. -/
def breakingKeywords : List (List Char) :=
  [("feat").data, ("fix").data, ("refactor").data]

/-- One line matches the anchored breaking-change regex
(feat or fix or refactor, optional scope, bang colon). -/
def lineBreaking (l : List Char) : Bool :=
  breakingKeywords.any fun kw => matchesAt kw ['!', ':'] l

/-- One line matches the anchored feature regex (feat, optional scope,
colon).  A bang before the colon makes this fail. -/
def lineFeat (l : List Char) : Bool :=
  matchesAt (("feat").data) [':'] l

/-- Embedding of analyze_impact from rc_align.py, as a function of the
commit-message corpus returned by the git log query: the pair
(is_breaking, is_feat). -/
def analyze_impact (logs : Option String) : Bool × Bool :=
  match logs with
  | none => (false, false)
  | some s =>
    match s.data with
    | [] => (false, false)
    | c :: cs =>
      ((pyLines (c :: cs)).any lineBreaking
          || occurs (("BREAKING CHANGE").data) (c :: cs),
        (pyLines (c :: cs)).any lineFeat)

/-- Spec-side reading of the is_breaking flag: some line starts with the
breaking pattern, or the literal marker occurs anywhere in the corpus. -/
def BreakingCorpusP (cs : List Char) : Prop :=
  (∃ l ∈ pyLines cs, ∃ kw ∈ breakingKeywords, MatchesAtP kw ['!', ':'] l)
    ∨ ∃ s t, cs = s ++ (("BREAKING CHANGE").data ++ t)

/-- Spec-side reading of the is_feat flag: some line starts with feat,
an optional scope, and a colon. -/
def FeatCorpusP (cs : List Char) : Prop :=
  ∃ l ∈ pyLines cs, MatchesAtP (("feat").data) [':'] l

/-! ## Commit Depth Counter -/

/-- The automation commit message constant of rc_align.py. -/
def BOT_COMMIT_MSG : String := "chore: enforce correct rc version"

/-- The automation footer marker constant of rc_align.py. -/
def BOT_FOOTER_TAG : String := "Release-As:"

/-- One subject matches the anchored release-automation commit regex
(chore, optional scope, colon-space-release). -/
def isReleaseCommit (l : List Char) : Bool :=
  matchesAt (("chore").data) ((": release").data) l

/-- A subject the depth counter skips: it contains the footer marker,
contains the automation commit message, or matches the release-commit
pattern. -/
def isBotSubject (l : List Char) : Bool :=
  occurs BOT_FOOTER_TAG.data l || occurs BOT_COMMIT_MSG.data l || isReleaseCommit l

/-- Embedding of get_commit_depth from rc_align.py, as a function of the
subject listing returned by the git log query. -/
def get_commit_depth (raw_subjects : Option String) : Nat :=
  match raw_subjects with
  | none => 0
  | some s =>
    match s.data with
    | [] => 0
    | c :: cs => ((pyLines (c :: cs)).filter (fun l => !isBotSubject l)).length

/-! ## Orchestrator -/

/-- One invocation's external world: the branch variable and the outcomes
of the three git queries and of opening the output sink.  An error value
models the corresponding call raising. -/
structure GitEnv where
  branch : Option String
  tagsResult : Except String (Option String)
  subjectsResult : Except String (Option String)
  bodiesResult : Except String (Option String)
  outputSink : Except String Unit

/-- First element of a Python split on newline. -/
def firstLine (cs : List Char) : List Char := (pyLines cs).headD []

/-- Embedding of find_baseline_tag from rc_align.py: most recent tag from
the tag listing, classified as release-candidate (from_stable false) when
it contains -rc, stable otherwise; no listing means the sentinel
(absent, true). -/
def find_baseline_tag (tagsResult : Except String (Option String)) :
    Except String (Option String × Bool) :=
  match tagsResult with
  | .error msg => .error msg
  | .ok tags_output =>
    match tags_output with
    | none => .ok (none, true)
    | some s =>
      match s.data with
      | [] => .ok (none, true)
      | c :: cs =>
        if occurs (("-rc").data) (firstLine (c :: cs)) then
          .ok (some (String.mk (firstLine (c :: cs))), false)
        else .ok (some (String.mk (firstLine (c :: cs))), true)

/-- Python str.lstrip with argument v: removes every leading v. -/
def lstripV (cs : List Char) : List Char := cs.dropWhile (fun c => c == 'v')

/-- Fuelled embedding of re.sub removing each match of dash r c dot-star:
at a match the rest of the line is consumed (dot does not cross a
newline), otherwise scanning advances one character. -/
def pySubRcAux : Nat → List Char → List Char
  | 0, _ => []
  | _ + 1, [] => []
  | fuel + 1, c :: cs =>
    if (("-rc").data).isPrefixOf (c :: cs) then
      pySubRcAux fuel ((cs.drop 2).dropWhile (fun ch => ch != '\n'))
    else c :: pySubRcAux fuel cs

/-- The re.sub call of the stable-promotion path. -/
def pySubRc (cs : List Char) : List Char := pySubRcAux (cs.length + 1) cs

/-- Spec-side transformation for the stable-promotion path: delete
everything from the first occurrence of -rc onward. -/
def cutAtFirstRc : List Char → List Char
  | [] => []
  | c :: cs =>
    if (("-rc").data).isPrefixOf (c :: cs) then []
    else c :: cutAtFirstRc cs

/-- The try block of the stable-promotion path of main: resolve the
baseline, fall back to 0.1.0 without a (truthy) tag, otherwise strip the
release-candidate suffix and the leading v markers, and append the output
line. -/
def stablePromotionBody (env : GitEnv) : Except String (List String) :=
  match find_baseline_tag env.tagsResult with
  | .error msg => .error msg
  | .ok r =>
    let stable_version : String :=
      match r.1 with
      | none => "0.1.0"
      | some tag =>
        if tag.data = [] then "0.1.0"
        else String.mk (lstripV (pySubRc tag.data))
    match env.outputSink with
    | .error msg => .error msg
    | .ok _ => .ok ["next_version=" ++ stable_version]

/-- The try block of the release-candidate path of main: resolve the
baseline, stop silently at depth zero, otherwise parse, classify, compute
the next version and append the output line. -/
def rcBody (env : GitEnv) : Except String (List String) :=
  match find_baseline_tag env.tagsResult with
  | .error msg => .error msg
  | .ok r =>
    match env.subjectsResult with
    | .error msg => .error msg
    | .ok subj =>
      if get_commit_depth subj = 0 then .ok []
      else
        match env.bodiesResult with
        | .error msg => .error msg
        | .ok bodies =>
          match env.outputSink with
          | .error msg => .error msg
          | .ok _ =>
            .ok ["next_version=" ++
              calculate_next_version (parse_semver r.1).1 (parse_semver r.1).2.1
                (parse_semver r.1).2.2.1 (parse_semver r.1).2.2.2
                (get_commit_depth subj) (analyze_impact bodies).1 (analyze_impact bodies).2 r.2]

/-- Embedding of main from rc_align.py: the branch-conditional driver.
The result is the process exit status together with the lines appended to
the output sink; each path catches any failure of its body, logs, and
exits with status zero. -/
def main (env : GitEnv) : Nat × List String :=
  if env.branch = some ("main") ∨ env.branch = some ("master") then
    match stablePromotionBody env with
    | .ok lines => (0, lines)
    | .error _ => (0, [])
  else
    match rcBody env with
    | .ok lines => (0, lines)
    | .error _ => (0, [])

/-- The module-level names rc_align.py has defined when control reaches its
line 15, which is the bare expression statement e. -/
def moduleNamesBeforeLine15 : List String :=
  [("os"), ("re"), ("subprocess"), ("sys"),
   ("BOT_COMMIT_MSG"), ("BOT_FOOTER_TAG"), ("run_git_command")]

/-- Whether the bare name e of line 15 resolves (the Python builtins define
no such name either). -/
def line15NameDefined : Bool := moduleNamesBeforeLine15.contains ("e")

/-- A whole process run of rc_align.py: the module body executes before
main, and its line 15 evaluates the bare name e; an undefined name there
raises NameError, which no handler catches, so the interpreter prints a
traceback and exits with status 1 before main ever runs. -/
def programRun (env : GitEnv) : Nat × List String :=
  if line15NameDefined then main env else (1, [])

/-! ## Theorems -/

/-! ### Basic scanning lemmas -/

theorem isPrefixOf_eq_iff (p l : List Char) :
    p.isPrefixOf l = true ↔ ∃ t, l = p ++ t := by
  rw [ List.isPrefixOf_iff_prefix]
  exact ⟨fun ⟨t, ht⟩ => ⟨t, ht.symm⟩, fun ⟨t, ht⟩ => ⟨t, ht.symm⟩⟩

theorem occurs_iff (pat l : List Char) :
    occurs pat l = true ↔ ∃ s t, l = s ++ (pat ++ t) := by
  induction l with
  | nil =>
    simp only [occurs]
    constructor
    · intro h
      have hp : pat = [] := by simpa using h
      exact ⟨[], [], by simp [hp]⟩
    · rintro ⟨s, t, h⟩
      have hs := h.symm
      simp only [List.append_eq_nil] at hs
      simp [hs.2.1]
  | cons c cs ih =>
    simp only [occurs, Bool.or_eq_true, ih, isPrefixOf_eq_iff]
    constructor
    · rintro (⟨t, ht⟩ | ⟨s, t, ht⟩)
      · exact ⟨[], t, by simpa using ht⟩
      · exact ⟨c :: s, t, by simp [ht]⟩
    · rintro ⟨s, t, ht⟩
      cases s with
      | nil => exact Or.inl ⟨t, by simpa using ht⟩
      | cons x s =>
        simp only [List.cons_append, List.cons.injEq] at ht
        exact Or.inr ⟨s, t, ht.2⟩

/-! ### Correctness of the decimal rendering -/

theorem digitChar_pyDigit {d : Nat} (h : d < 10) : pyIsDigit (Nat.digitChar d) = true := by
  interval_cases d <;> decide

theorem digitChar_pyVal {d : Nat} (h : d < 10) : pyDigitVal (Nat.digitChar d) = d := by
  interval_cases d <;> decide

theorem renderNatAux_spec :
    ∀ fuel n, n < fuel →
      renderNatAux fuel n ≠ [] ∧ (∀ c ∈ renderNatAux fuel n, pyIsDigit c = true)
        ∧ digitsVal (renderNatAux fuel n) = n := by
  intro fuel
  induction fuel with
  | zero => exact fun n h => absurd h (Nat.not_lt_zero n)
  | succ fuel ih =>
    intro n hn
    by_cases h10 : n < 10
    · refine ⟨by simp [renderNatAux, h10], ?_, ?_⟩
      · intro c hc
        simp [renderNatAux, h10] at hc
        simpa [hc] using digitChar_pyDigit h10
      · simp [renderNatAux, h10, digitsVal, digitChar_pyVal h10]
    · have hpos : 0 < n := by omega
      have hdiv : n / 10 < fuel := by
        have h1 : n / 10 < n := Nat.div_lt_self hpos (by omega)
        omega
      obtain ⟨hne, hdig, hval⟩ := ih (n / 10) hdiv
      have hmod : n % 10 < 10 := Nat.mod_lt n (by omega)
      refine ⟨by simp [renderNatAux, h10], ?_, ?_⟩
      · intro c hc
        simp [renderNatAux, h10] at hc
        rcases hc with hc | hc
        · exact hdig c hc
        · simpa [hc] using digitChar_pyDigit hmod
      · simp only [renderNatAux, if_neg h10, digitsVal, List.foldl_append]
        have : digitsVal (renderNatAux fuel (n / 10)) = n / 10 := hval
        simp only [digitsVal] at this
        simp [List.foldl, this, digitChar_pyVal hmod]
        omega

theorem renderNat_ne_nil (n : Nat) : renderNat n ≠ [] :=
  (renderNatAux_spec (n + 1) n (Nat.lt_succ_self n)).1

theorem renderNat_digits (n : Nat) : ∀ c ∈ renderNat n, pyIsDigit c = true :=
  (renderNatAux_spec (n + 1) n (Nat.lt_succ_self n)).2.1

theorem digitsVal_renderNat (n : Nat) : digitsVal (renderNat n) = n :=
  (renderNatAux_spec (n + 1) n (Nat.lt_succ_self n)).2.2

/-! ### Parser lemmas -/

theorem splitDigits_append_spec (cs : List Char) :
    (splitDigits cs).1 ++ (splitDigits cs).2 = cs
      ∧ ∀ c ∈ (splitDigits cs).1, pyIsDigit c = true := by
  induction cs with
  | nil => simp [splitDigits]
  | cons c cs ih =>
    by_cases h : pyIsDigit c = true
    · obtain ⟨ih1, ih2⟩ := ih
      refine ⟨?_, ?_⟩
      · simp [splitDigits, h, ih1]
      · intro x hx
        simp only [splitDigits, if_pos h, List.mem_cons] at hx
        rcases hx with hx | hx
        · simpa [hx] using h
        · exact ih2 x hx
    · exact ⟨by simp [splitDigits, h], by simp [splitDigits, h]⟩

theorem splitDigits_exact {d r : List Char} (hd : ∀ c ∈ d, pyIsDigit c = true)
    (hr : ∀ c, r.head? = some c → pyIsDigit c = false) :
    splitDigits (d ++ r) = (d, r) := by
  induction d with
  | nil =>
    cases r with
    | nil => rfl
    | cons c cs =>
      have hc : pyIsDigit c = false := hr c rfl
      simp [splitDigits, hc]
  | cons c d ih =>
    have hc : pyIsDigit c = true := hd c (by simp)
    have hd2 : ∀ x ∈ d, pyIsDigit x = true := fun x hx => hd x (by simp [hx])
    simp [splitDigits, hc, ih hd2]

theorem parseNum_eq_some {cs : List Char} {p : Nat × List Char} (h : parseNum cs = some p) :
    ∃ d, d ≠ [] ∧ (∀ c ∈ d, pyIsDigit c = true) ∧ cs = d ++ p.2 ∧ p.1 = digitsVal d := by
  unfold parseNum at h
  split at h
  · exact absurd h (by simp)
  · rename_i hne
    obtain rfl : p = (digitsVal (splitDigits cs).1, (splitDigits cs).2) :=
      (Option.some.inj h).symm
    exact ⟨(splitDigits cs).1, hne, (splitDigits_append_spec cs).2,
      ((splitDigits_append_spec cs).1).symm, rfl⟩

theorem parseNum_append {d r : List Char} (hne : d ≠ [])
    (hd : ∀ c ∈ d, pyIsDigit c = true)
    (hr : ∀ c, r.head? = some c → pyIsDigit c = false) :
    parseNum (d ++ r) = some (digitsVal d, r) := by
  unfold parseNum
  rw [splitDigits_exact hd hr]
  simp [hne]

theorem expectChar_eq_some {c : Char} {cs r : List Char} (h : expectChar c cs = some r) :
    cs = c :: r := by
  cases cs with
  | nil => exact absurd h (by simp [expectChar])
  | cons x xs =>
    by_cases hx : x = c
    · simp only [expectChar, if_pos hx] at h
      rw [hx, Option.some.inj h]
    · simp [expectChar, hx] at h

theorem expectChar_cons (c : Char) (r : List Char) : expectChar c (c :: r) = some r := by
  simp [expectChar]

theorem expectSeq_eq_some {pat cs r : List Char} (h : expectSeq pat cs = some r) :
    cs = pat ++ r := by
  unfold expectSeq at h
  split at h
  · rename_i hp
    obtain ⟨t, ht⟩ := (isPrefixOf_eq_iff pat cs).mp hp
    cases Option.some.inj h
    subst ht
    simp [ List.drop_left]
  · exact absurd h (by simp)

theorem expectSeq_append (pat r : List Char) : expectSeq pat (pat ++ r) = some r := by
  unfold expectSeq
  rw [if_pos ((isPrefixOf_eq_iff pat _).mpr ⟨r, rfl⟩)]
  simp [ List.drop_left]

theorem head_not_digit_cons {c : Char} (h : pyIsDigit c = false) (l : List Char) :
    ∀ x, (c :: l).head? = some x → pyIsDigit x = false := by
  intro x hx
  cases Option.some.inj hx
  exact h

theorem head_not_digit_nil :
    ∀ x, ([] : List Char).head? = some x → pyIsDigit x = false := by
  intro x hx
  exact absurd hx (by simp)

theorem dollarAtEnd_iff (r : List Char) :
    dollarAtEnd r = true ↔ r = [] ∨ r = ['\n'] := by
  cases r with
  | nil => simp [dollarAtEnd]
  | cons c rest =>
    simp [dollarAtEnd, Bool.and_eq_true, List.isEmpty_iff]

theorem matchRc_shape {cs : List Char} {out : Nat × Nat × Nat × Nat}
    (h : matchRc cs = some out) : RcShapeRelaxed cs := by
  unfold matchRc at h
  rw [Option.bind_eq_some] at h
  obtain ⟨r0, h0, h⟩ := h
  rw [Option.bind_eq_some] at h
  obtain ⟨p1, hp1, h⟩ := h
  rw [Option.bind_eq_some] at h
  obtain ⟨r1, h1, h⟩ := h
  rw [Option.bind_eq_some] at h
  obtain ⟨p2, hp2, h⟩ := h
  rw [Option.bind_eq_some] at h
  obtain ⟨r2, h2, h⟩ := h
  rw [Option.bind_eq_some] at h
  obtain ⟨p3, hp3, h⟩ := h
  rw [Option.bind_eq_some] at h
  obtain ⟨r3, h3, h⟩ := h
  rw [Option.bind_eq_some] at h
  obtain ⟨p4, hp4, h⟩ := h
  have hend : dollarAtEnd p4.2 = true := by
    by_contra hne
    simp [hne] at h
  obtain ⟨d1, hd1ne, hd1dig, hcs1, _⟩ := parseNum_eq_some hp1
  obtain ⟨d2, hd2ne, hd2dig, hcs2, _⟩ := parseNum_eq_some hp2
  obtain ⟨d3, hd3ne, hd3dig, hcs3, _⟩ := parseNum_eq_some hp3
  obtain ⟨d4, hd4ne, hd4dig, hcs4, _⟩ := parseNum_eq_some hp4
  have e0 : cs = 'v' :: r0 := expectChar_eq_some h0
  have e1 : p1.2 = '.' :: r1 := expectChar_eq_some h1
  have e2 : p2.2 = '.' :: r2 := expectChar_eq_some h2
  have e3 : p3.2 = ['-', 'r', 'c', '.'] ++ r3 := expectSeq_eq_some h3
  rcases (dollarAtEnd_iff p4.2).mp hend with hnil | hnl
  · refine Or.inl ⟨d1, d2, d3, d4, ⟨hd1ne, hd1dig⟩, ⟨hd2ne, hd2dig⟩,
      ⟨hd3ne, hd3dig⟩, ⟨hd4ne, hd4dig⟩, ?_⟩
    rw [e0, hcs1, e1, hcs2, e2, hcs3, e3, hcs4, hnil]
    simp
  · refine Or.inr ⟨'v' :: (d1 ++ '.' :: (d2 ++ '.' ::
        (d3 ++ '-' :: 'r' :: 'c' :: '.' :: d4))),
      ⟨d1, d2, d3, d4, ⟨hd1ne, hd1dig⟩, ⟨hd2ne, hd2dig⟩,
        ⟨hd3ne, hd3dig⟩, ⟨hd4ne, hd4dig⟩, rfl⟩, ?_⟩
    rw [e0, hcs1, e1, hcs2, e2, hcs3, e3, hcs4, hnl]
    simp

theorem matchStable_shape {cs : List Char} {out : Nat × Nat × Nat}
    (h : matchStable cs = some out) : StableShapeRelaxed cs := by
  unfold matchStable at h
  rw [Option.bind_eq_some] at h
  obtain ⟨r0, h0, h⟩ := h
  rw [Option.bind_eq_some] at h
  obtain ⟨p1, hp1, h⟩ := h
  rw [Option.bind_eq_some] at h
  obtain ⟨r1, h1, h⟩ := h
  rw [Option.bind_eq_some] at h
  obtain ⟨p2, hp2, h⟩ := h
  rw [Option.bind_eq_some] at h
  obtain ⟨r2, h2, h⟩ := h
  rw [Option.bind_eq_some] at h
  obtain ⟨p3, hp3, h⟩ := h
  have hend : dollarAtEnd p3.2 = true := by
    by_contra hne
    simp [hne] at h
  obtain ⟨d1, hd1ne, hd1dig, hcs1, _⟩ := parseNum_eq_some hp1
  obtain ⟨d2, hd2ne, hd2dig, hcs2, _⟩ := parseNum_eq_some hp2
  obtain ⟨d3, hd3ne, hd3dig, hcs3, _⟩ := parseNum_eq_some hp3
  have e0 : cs = 'v' :: r0 := expectChar_eq_some h0
  have e1 : p1.2 = '.' :: r1 := expectChar_eq_some h1
  have e2 : p2.2 = '.' :: r2 := expectChar_eq_some h2
  rcases (dollarAtEnd_iff p3.2).mp hend with hnil | hnl
  · refine Or.inl ⟨d1, d2, d3, ⟨hd1ne, hd1dig⟩, ⟨hd2ne, hd2dig⟩, ⟨hd3ne, hd3dig⟩, ?_⟩
    rw [e0, hcs1, e1, hcs2, e2, hcs3, hnil]
    simp
  · refine Or.inr ⟨'v' :: (d1 ++ '.' :: (d2 ++ '.' :: d3)),
      ⟨d1, d2, d3, ⟨hd1ne, hd1dig⟩, ⟨hd2ne, hd2dig⟩, ⟨hd3ne, hd3dig⟩, rfl⟩, ?_⟩
    rw [e0, hcs1, e1, hcs2, e2, hcs3, hnl]
    simp

theorem parse_semver_mk_cons (c : Char) (cs : List Char) :
    parse_semver (some (String.mk (c :: cs)))
      = match matchRc (c :: cs) with
        | some r => r
        | none =>
          match matchStable (c :: cs) with
          | some p => (p.1, p.2.1, p.2.2, 0)
          | none => (0, 0, 0, 0) := rfl

theorem matchRc_canonical (M N P R : Nat) :
    matchRc ('v' :: (renderNat M ++ '.' :: (renderNat N ++ '.' ::
      (renderNat P ++ '-' :: 'r' :: 'c' :: '.' :: renderNat R)))) = some (M, N, P, R) := by
  have h1 : parseNum (renderNat M ++ '.' :: (renderNat N ++ '.' ::
      (renderNat P ++ '-' :: 'r' :: 'c' :: '.' :: renderNat R)))
      = some (M, '.' :: (renderNat N ++ '.' ::
          (renderNat P ++ '-' :: 'r' :: 'c' :: '.' :: renderNat R))) := by
    have h := @parseNum_append (renderNat M) ('.' :: (renderNat N ++ '.' ::
        (renderNat P ++ '-' :: 'r' :: 'c' :: '.' :: renderNat R)))
      (renderNat_ne_nil M) (renderNat_digits M) (@head_not_digit_cons '.' (by decide) _)
    rwa [digitsVal_renderNat] at h
  have h2 : parseNum (renderNat N ++ '.' ::
      (renderNat P ++ '-' :: 'r' :: 'c' :: '.' :: renderNat R))
      = some (N, '.' :: (renderNat P ++ '-' :: 'r' :: 'c' :: '.' :: renderNat R)) := by
    have h := @parseNum_append (renderNat N) ('.' ::
        (renderNat P ++ '-' :: 'r' :: 'c' :: '.' :: renderNat R))
      (renderNat_ne_nil N) (renderNat_digits N) (@head_not_digit_cons '.' (by decide) _)
    rwa [digitsVal_renderNat] at h
  have h3 : parseNum (renderNat P ++ '-' :: 'r' :: 'c' :: '.' :: renderNat R)
      = some (P, '-' :: 'r' :: 'c' :: '.' :: renderNat R) := by
    have h := @parseNum_append (renderNat P) ('-' :: 'r' :: 'c' :: '.' :: renderNat R)
      (renderNat_ne_nil P) (renderNat_digits P) (@head_not_digit_cons '-' (by decide) _)
    rwa [digitsVal_renderNat] at h
  have h4 : parseNum (renderNat R) = some (R, []) := by
    have h := @parseNum_append (renderNat R) [] (renderNat_ne_nil R)
      (renderNat_digits R) head_not_digit_nil
    rwa [digitsVal_renderNat, List.append_nil] at h
  have h5 : expectSeq ['-', 'r', 'c', '.'] ('-' :: 'r' :: 'c' :: '.' :: renderNat R)
      = some (renderNat R) := expectSeq_append ['-', 'r', 'c', '.'] (renderNat R)
  unfold matchRc
  rw [expectChar_cons, Option.some_bind, h1, Option.some_bind, expectChar_cons,
    Option.some_bind, h2, Option.some_bind, expectChar_cons, Option.some_bind, h3,
    Option.some_bind, h5, Option.some_bind, h4, Option.some_bind]
  simp [dollarAtEnd]

/-- C4: parsing the canonical decimal formatting of vM.N.P-rc.R returns
exactly the four integers: formatting then parsing round-trips. -/
theorem c4_roundtrip (M N P R : Nat) :
    parse_semver (some (canonicalRcTag M N P R)) = (M, N, P, R) := by
  show parse_semver (some (String.mk ('v' :: (renderNat M ++ '.' :: (renderNat N ++ '.' ::
    (renderNat P ++ '-' :: 'r' :: 'c' :: '.' :: renderNat R)))))) = (M, N, P, R)
  rw [parse_semver_mk_cons, matchRc_canonical]

/-- C3 (amended): parse_semver maps every absent input, and every tag that
neither has one of the two well-formed shapes nor is such a shape followed
by one trailing newline (which the dollar anchor also accepts), to the
zero sentinel (0, 0, 0, 0); the embedding is a total function, which is
the shallow counterpart of the never-raises part of the claim. -/
theorem c3_malformed_fallback (tag : Option String)
    (h : ∀ s : String, tag = some s →
      ¬ RcShapeRelaxed s.data ∧ ¬ StableShapeRelaxed s.data) :
    parse_semver tag = (0, 0, 0, 0) := by
  cases tag with
  | none => rfl
  | some t =>
    obtain ⟨cs⟩ := t
    cases cs with
    | nil => rfl
    | cons c cs =>
      obtain ⟨hrc, hst⟩ := h (String.mk (c :: cs)) rfl
      rcases hm : matchRc (c :: cs) with _ | r
      · rcases hs : matchStable (c :: cs) with _ | p
        · simp [parse_semver, hm, hs]
        · exact absurd (matchStable_shape hs) hst
      · exact absurd (matchRc_shape hm) hrc

/-- C3 witness: a concrete malformed tag is sent to the zero sentinel. -/
theorem c3_witness : parse_semver (some ("hello")) = (0, 0, 0, 0) := by
  apply c3_malformed_fallback
  intro s hs
  cases Option.some.inj hs
  have hd : ("hello" : String).data = ['h', 'e', 'l', 'l', 'o'] := rfl
  constructor
  · rintro (⟨a, b, c, d, _, _, _, _, hshape⟩ | ⟨core, hcore, heq⟩)
    · rw [hd] at hshape
      simp at hshape
    · rw [hd] at heq
      have hlast := congrArg List.getLast? heq
      rw [ List.getLast?_concat] at hlast
      exact absurd hlast (by decide)
  · rintro (⟨a, b, c, _, _, _, hshape⟩ | ⟨core, hcore, heq⟩)
    · rw [hd] at hshape
      simp at hshape
    · rw [hd] at heq
      have hlast := congrArg List.getLast? heq
      rw [ List.getLast?_concat] at hlast
      exact absurd hlast (by decide)

/-- Every tag of one of the two claimed shapes ends in a decimal digit:
the tool for refuting a claimed shape at a concrete input. -/
theorem shape_last_digit {cs : List Char} (h : RcShape cs ∨ StableShape cs) :
    ∃ c, cs.getLast? = some c ∧ pyIsDigit c = true := by
  rcases h with ⟨a, b, c, d, _, _, _, hd4, heq⟩ | ⟨a, b, c, _, _, hc3, heq⟩
  · obtain ⟨hne, hdig⟩ := hd4
    have hsplit : cs
        = ('v' :: (a ++ '.' :: (b ++ '.' :: (c ++ ['-', 'r', 'c', '.'])))) ++ d := by
      rw [heq]
      simp
    refine ⟨d.getLast hne, ?_, hdig _ (List.getLast_mem hne)⟩
    rw [hsplit, List.getLast?_append, List.getLast?_eq_getLast d hne]
    rfl
  · obtain ⟨hne, hdig⟩ := hc3
    have hsplit : cs = ('v' :: (a ++ '.' :: (b ++ ['.']))) ++ c := by
      rw [heq]
      simp
    refine ⟨c.getLast hne, ?_, hdig _ (List.getLast_mem hne)⟩
    rw [hsplit, List.getLast?_append, List.getLast?_eq_getLast c hne]
    rfl

/-- C3 counterexample: the tag v1.2.3 followed by one newline does not
have either claimed shape, yet parse_semver returns (1, 2, 3, 0) for it
rather than the zero sentinel, because the dollar anchor of the source's
regexes also matches just before a trailing newline. -/
theorem c3_counterexample :
    parse_semver (some ("v1.2.3\n")) = (1, 2, 3, 0)
    ∧ ((1, 2, 3, 0) : Nat × Nat × Nat × Nat) ≠ (0, 0, 0, 0)
    ∧ ¬ RcShape ("v1.2.3\n").data ∧ ¬ StableShape ("v1.2.3\n").data := by
  refine ⟨by decide, by decide, ?_, ?_⟩
  · intro hshape
    obtain ⟨c, hlast, hdig⟩ := shape_last_digit (Or.inl hshape)
    have hc : c = '\n' := by
      have hd : ("v1.2.3\n" : String).data.getLast? = some '\n' := by decide
      exact (Option.some.inj (hlast.symm.trans hd))
    rw [hc] at hdig
    exact absurd hdig (by decide)
  · intro hshape
    obtain ⟨c, hlast, hdig⟩ := shape_last_digit (Or.inr hshape)
    have hc : c = '\n' := by
      have hd : ("v1.2.3\n" : String).data.getLast? = some '\n' := by decide
      exact (Option.some.inj (hlast.symm.trans hd))
    rw [hc] at hdig
    exact absurd hdig (by decide)

/-- Dollar-anchor sanity check: one trailing newline is accepted, as in
Python. -/
theorem parse_semver_trailing_newline :
    parse_semver (some ("v1.2.3-rc.4\n")) = (1, 2, 3, 4) := by decide

/-- Unicode-digit sanity check: Arabic-Indic digit characters parse, as in
Python, where backslash-d and int() accept every decimal digit. -/
theorem parse_semver_other_digits :
    parse_semver (some ("v١.٢.٣")) = (1, 2, 3, 0) := by decide

/-! ### C9: the calculator always emits a release-candidate suffix -/

theorem string_data_append (a b : String) : (a ++ b).data = a.data ++ b.data := rfl

theorem dash_not_mem_triple (x y z : Nat) :
    ('-' : Char) ∉ renderNat x ++ '.' :: (renderNat y ++ '.' :: renderNat z) := by
  intro h
  simp only [List.mem_append, List.mem_cons] at h
  rcases h with h | h | h | h | h
  · exact absurd (renderNat_digits x _ h) (by decide)
  · exact absurd h (by decide)
  · exact absurd (renderNat_digits y _ h) (by decide)
  · exact absurd h (by decide)
  · exact absurd (renderNat_digits z _ h) (by decide)

theorem template_ne_triple (a b c k x y z : Nat) :
    renderNat a ++ '.' :: (renderNat b ++ '.' ::
        (renderNat c ++ '-' :: 'r' :: 'c' :: '.' :: renderNat k))
      ≠ renderNat x ++ '.' :: (renderNat y ++ '.' :: renderNat z) := by
  intro h
  apply dash_not_mem_triple x y z
  rw [← h]
  simp

/-! ### C5 and C6: commit-message scanning -/

theorem afterOptScope_iff (suf r : List Char) :
    afterOptScope suf r = true ↔
      (∃ t, r = suf ++ t) ∨ ∃ m t, r = '(' :: (m ++ ')' :: (suf ++ t)) := by
  unfold afterOptScope
  cases r with
  | nil =>
    rw [Bool.or_eq_true, isPrefixOf_eq_iff]
    simp
  | cons c r2 =>
    rw [Bool.or_eq_true, isPrefixOf_eq_iff, Bool.and_eq_true, beq_iff_eq]
    constructor
    · rintro (⟨t, ht⟩ | ⟨hc, hocc⟩)
      · exact Or.inl ⟨t, ht⟩
      · subst hc
        obtain ⟨m, t, hmt⟩ := (occurs_iff _ _).mp hocc
        exact Or.inr ⟨m, t, by simp [hmt]⟩
    · rintro (⟨t, ht⟩ | ⟨m, t, hmt⟩)
      · exact Or.inl ⟨t, ht⟩
      · simp only [List.cons.injEq] at hmt
        refine Or.inr ⟨hmt.1, (occurs_iff _ _).mpr ⟨m, t, ?_⟩⟩
        rw [hmt.2]
        simp

theorem matchesAt_iff (kw suf l : List Char) :
    matchesAt kw suf l = true ↔ MatchesAtP kw suf l := by
  unfold matchesAt MatchesAtP
  rw [Bool.and_eq_true, isPrefixOf_eq_iff]
  constructor
  · rintro ⟨⟨r, hr⟩, hsc⟩
    subst hr
    rw [ List.drop_left] at hsc
    exact ⟨r, rfl, (afterOptScope_iff suf r).mp hsc⟩
  · rintro ⟨r, hr, hsc⟩
    subst hr
    exact ⟨⟨r, rfl⟩, by rw [ List.drop_left]; exact (afterOptScope_iff suf r).mpr hsc⟩

/-- C5: is_breaking holds exactly when some line starts with the
breaking-change pattern (feat, fix or refactor, optional scope, bang
colon) or the literal BREAKING CHANGE marker occurs anywhere in the
corpus; is_feat holds exactly when some line starts with the feature
pattern (feat, optional scope, colon); and the two detections are
independent: a corpus whose only signal is a feat-bang line is breaking
but not feat. -/
theorem c5_impact_classification :
    (∀ s : String,
      ((analyze_impact (some s)).1 = true ↔ BreakingCorpusP s.data)
      ∧ ((analyze_impact (some s)).2 = true ↔ FeatCorpusP s.data))
    ∧ analyze_impact (some ("feat!: change things")) = (true, false) := by
  constructor
  · intro s
    obtain ⟨cs⟩ := s
    have heq : analyze_impact (some (String.mk cs))
        = ((pyLines cs).any lineBreaking || occurs (("BREAKING CHANGE").data) cs,
            (pyLines cs).any lineFeat) := by
      cases cs with
      | nil => decide
      | cons c cs => rfl
    rw [heq]
    constructor
    · show ((pyLines cs).any lineBreaking || occurs (("BREAKING CHANGE").data) cs) = true
        ↔ BreakingCorpusP cs

      unfold BreakingCorpusP
      rw [Bool.or_eq_true, List.any_eq_true, occurs_iff]
      constructor
      · rintro (⟨l, hl, hb⟩ | hocc)
        · unfold lineBreaking at hb
          obtain ⟨kw, hkw, hm⟩ := List.any_eq_true.mp hb
          exact Or.inl ⟨l, hl, kw, hkw, (matchesAt_iff _ _ _).mp hm⟩
        · exact Or.inr hocc
      · rintro (⟨l, hl, kw, hkw, hm⟩ | hocc)
        · refine Or.inl ⟨l, hl, ?_⟩
          unfold lineBreaking
          exact List.any_eq_true.mpr ⟨kw, hkw, (matchesAt_iff _ _ _).mpr hm⟩
        · exact Or.inr hocc
    · show (pyLines cs).any lineFeat = true ↔ FeatCorpusP cs
      unfold FeatCorpusP lineFeat
      rw [List.any_eq_true]
      constructor
      · rintro ⟨l, hl, hm⟩
        exact ⟨l, hl, (matchesAt_iff _ _ _).mp hm⟩
      · rintro ⟨l, hl, hm⟩
        exact ⟨l, hl, (matchesAt_iff _ _ _).mpr hm⟩
  · decide

/-- C6: a subject is skipped by the depth counter exactly when it contains
the automation footer marker, contains the automation commit message, or
matches the release-commit pattern; the depth is the count of the
remaining subjects, and an absent or empty listing yields depth 0. -/
theorem c6_depth_counting :
    (∀ l : List Char, isBotSubject l = true ↔
        ((∃ s t, l = s ++ (BOT_FOOTER_TAG.data ++ t))
          ∨ (∃ s t, l = s ++ (BOT_COMMIT_MSG.data ++ t))
          ∨ MatchesAtP (("chore").data) ((": release").data) l))
    ∧ (∀ s : String, s.data ≠ [] →
        get_commit_depth (some s)
          = ((pyLines s.data).filter (fun l => !isBotSubject l)).length)
    ∧ get_commit_depth none = 0
    ∧ get_commit_depth (some ("")) = 0 := by
  refine ⟨?_, ?_, rfl, by decide⟩
  · intro l
    unfold isBotSubject isReleaseCommit
    rw [Bool.or_eq_true, Bool.or_eq_true, occurs_iff, occurs_iff, matchesAt_iff, or_assoc]
  · intro s hs
    obtain ⟨cs⟩ := s
    cases cs with
    | nil => exact absurd rfl hs
    | cons c cs => rfl

/-- C6 witness: a concrete five-subject batch in which a footer-marked
subject, the automation message and a scoped release commit are all
skipped, wherever they sit in the batch, leaving depth 2. -/
theorem c6_witness :
    get_commit_depth
        (some ("feat: a\nRelease-As: 1.2.3\nchore: enforce correct rc version\nchore(main): release v2.0.0\ndocs: b"))
      = 2 :=
  (c6_depth_counting.2.1
      ("feat: a\nRelease-As: 1.2.3\nchore: enforce correct rc version\nchore(main): release v2.0.0\ndocs: b")
      (by decide)).trans (by decide)

/-- C9: on the documented precondition depth at least 1, every result of
calculate_next_version is of the form a.b.c-rc.k with k at least 1, and is
never a bare stable triple x.y.z. -/
theorem c9_always_rc_suffix (major minor patch rc depth : Nat)
    (is_breaking is_feat from_stable : Bool) (hd : 1 ≤ depth) :
    ∃ a b c k, 1 ≤ k ∧
      (calculate_next_version major minor patch rc depth is_breaking is_feat from_stable).data
        = renderNat a ++ '.' :: (renderNat b ++ '.' ::
            (renderNat c ++ '-' :: 'r' :: 'c' :: '.' :: renderNat k))
      ∧ ∀ x y z : Nat,
        (calculate_next_version major minor patch rc depth is_breaking is_feat from_stable).data
          ≠ renderNat x ++ '.' :: (renderNat y ++ '.' :: renderNat z) := by
  cases is_breaking with
  | true =>
    refine ⟨major + 1, 0, 0, depth, hd, ?_, ?_⟩
    · simp [calculate_next_version, pyStr, string_data_append, renderNat]
      rfl
    · intro x y z
      rw [show (calculate_next_version major minor patch rc depth true is_feat from_stable).data
            = renderNat (major + 1) ++ '.' :: (renderNat 0 ++ '.' ::
                (renderNat 0 ++ '-' :: 'r' :: 'c' :: '.' :: renderNat depth)) from by
          simp [calculate_next_version, pyStr, string_data_append, renderNat]
          rfl]
      exact template_ne_triple _ _ _ _ x y z
  | false =>
    cases is_feat with
    | true =>
      by_cases hc : (from_stable || decide (patch > 0)) = true
      · refine ⟨major, minor + 1, 0, depth, hd, ?_, ?_⟩
        · simp [calculate_next_version, hc, pyStr, string_data_append, renderNat]
          rfl
        · intro x y z
          rw [show (calculate_next_version major minor patch rc depth false true from_stable).data
                = renderNat major ++ '.' :: (renderNat (minor + 1) ++ '.' ::
                    (renderNat 0 ++ '-' :: 'r' :: 'c' :: '.' :: renderNat depth)) from by
              simp [calculate_next_version, hc, pyStr, string_data_append, renderNat]
              rfl]
          exact template_ne_triple _ _ _ _ x y z
      · refine ⟨major, minor, patch, rc + depth, by omega, ?_, ?_⟩
        · simp [calculate_next_version, hc, pyStr, string_data_append]
        · intro x y z
          rw [show (calculate_next_version major minor patch rc depth false true from_stable).data
                = renderNat major ++ '.' :: (renderNat minor ++ '.' ::
                    (renderNat patch ++ '-' :: 'r' :: 'c' :: '.' :: renderNat (rc + depth))) from by
              simp [calculate_next_version, hc, pyStr, string_data_append]]
          exact template_ne_triple _ _ _ _ x y z
    | false =>
      cases from_stable with
      | true =>
        refine ⟨major, minor, patch + 1, depth, hd, ?_, ?_⟩
        · simp [calculate_next_version, pyStr, string_data_append]
        · intro x y z
          rw [show (calculate_next_version major minor patch rc depth false false true).data
                = renderNat major ++ '.' :: (renderNat minor ++ '.' ::
                    (renderNat (patch + 1) ++ '-' :: 'r' :: 'c' :: '.' :: renderNat depth)) from by
              simp [calculate_next_version, pyStr, string_data_append]]
          exact template_ne_triple _ _ _ _ x y z
      | false =>
        refine ⟨major, minor, patch, rc + depth, by omega, ?_, ?_⟩
        · simp [calculate_next_version, pyStr, string_data_append]
        · intro x y z
          rw [show (calculate_next_version major minor patch rc depth false false false).data
                = renderNat major ++ '.' :: (renderNat minor ++ '.' ::
                    (renderNat patch ++ '-' :: 'r' :: 'c' :: '.' :: renderNat (rc + depth))) from by
              simp [calculate_next_version, pyStr, string_data_append]]
          exact template_ne_triple _ _ _ _ x y z

/-- C9 witness: the release-candidate suffix invariant at a concrete
breaking-change input of depth 1. -/
theorem c9_witness :
    ∃ a b c k, 1 ≤ k ∧
      (calculate_next_version 1 2 3 0 1 true false true).data
        = renderNat a ++ '.' :: (renderNat b ++ '.' ::
            (renderNat c ++ '-' :: 'r' :: 'c' :: '.' :: renderNat k))
      ∧ ∀ x y z : Nat,
        (calculate_next_version 1 2 3 0 1 true false true).data
          ≠ renderNat x ++ '.' :: (renderNat y ++ '.' :: renderNat z) :=
  c9_always_rc_suffix 1 2 3 0 1 true false true (by decide)

/-- C1: with is_breaking set, calculate_next_version returns
(major+1).0.0-rc.depth, whatever minor, patch, rc, is_feat and from_stable
are: breaking takes precedence, minor and patch are reset to 0, and the rc
count is exactly the depth, not rc + depth. -/
theorem c1_breaking_precedence (major minor patch rc depth : Nat)
    (is_feat from_stable : Bool) :
    calculate_next_version major minor patch rc depth true is_feat from_stable
      = pyStr (major + 1) ++ ".0.0-rc." ++ pyStr depth := by
  simp [calculate_next_version]

/-- C7: with is_breaking clear and is_feat set, the calculator bumps the
minor (resetting patch, rc count = depth) exactly when from_stable holds or
patch is positive, and otherwise keeps the triple and accumulates the rc
count to rc + depth. -/
theorem c7_feature_rules (major minor patch rc depth : Nat) (from_stable : Bool) :
    ((from_stable = true ∨ 0 < patch) →
      calculate_next_version major minor patch rc depth false true from_stable
        = pyStr major ++ "." ++ pyStr (minor + 1) ++ ".0-rc." ++ pyStr depth)
    ∧ (from_stable = false → patch = 0 →
      calculate_next_version major minor patch rc depth false true from_stable
        = pyStr major ++ "." ++ pyStr minor ++ "." ++ pyStr patch
            ++ "-rc." ++ pyStr (rc + depth)) := by
  constructor
  · rintro (hs | hp)
    · simp [calculate_next_version, hs]
    · simp [calculate_next_version, hp]
  · intro hs hp
    simp [calculate_next_version, hs, hp]

/-- C7 witness: the spec scenario, baseline v1.2.0-rc.2 with one feature
commit while not from stable: the result is 1.2.0-rc.3, not a minor bump. -/
theorem c7_witness :
    calculate_next_version 1 2 0 2 1 false true false = "1.2.0-rc.3" :=
  ((c7_feature_rules 1 2 0 2 1 false).2 rfl rfl).trans (by decide)

/-! ### Orchestrator lemmas -/

theorem find_baseline_tag_ok (t : Option String) :
    ∃ r, find_baseline_tag (.ok t) = .ok r := by
  cases t with
  | none => exact ⟨(none, true), rfl⟩
  | some s =>
    obtain ⟨cs⟩ := s
    cases cs with
    | nil => exact ⟨(none, true), rfl⟩
    | cons c cs =>
      unfold find_baseline_tag
      by_cases h : occurs (("-rc").data) (firstLine (c :: cs)) = true
      · exact ⟨(some (String.mk (firstLine (c :: cs))), false), by simp [h]⟩
      · exact ⟨(some (String.mk (firstLine (c :: cs))), true), by simp [h]⟩

theorem dropWhile_all {p : Char → Bool} {l : List Char} (h : ∀ x ∈ l, p x = true) :
    l.dropWhile p = [] := by
  induction l with
  | nil => rfl
  | cons c cs ih =>
    rw [List.dropWhile_cons_of_pos (h c (by simp))]
    exact ih (fun x hx => h x (by simp [hx]))

theorem pyLines_ne_nil (cs : List Char) : pyLines cs ≠ [] := by
  cases cs with
  | nil => simp [pyLines]
  | cons c cs =>
    unfold pyLines
    by_cases h : c = '\n'
    · simp [h]
    · rcases hp : pyLines cs with _ | ⟨l, ls⟩ <;> simp [h, hp]

theorem firstLine_no_newline (cs : List Char) : ∀ c ∈ firstLine cs, c ≠ '\n' := by
  induction cs with
  | nil =>
    intro x hx
    simp [firstLine, pyLines] at hx
  | cons c cs ih =>
    intro x hx
    unfold firstLine pyLines at hx
    by_cases h : c = '\n'
    · simp [h] at hx
    · rcases hp : pyLines cs with _ | ⟨l, ls⟩
      · exact absurd hp (pyLines_ne_nil cs)
      · rw [hp] at hx
        simp [h] at hx
        rcases hx with hx | hx
        · rw [hx]; exact h
        · exact ih x (by simpa [firstLine, hp] using hx)

theorem pySubRcAux_no_newline :
    ∀ fuel cs, cs.length < fuel → (∀ c ∈ cs, c ≠ '\n') →
      pySubRcAux fuel cs = cutAtFirstRc cs := by
  intro fuel
  induction fuel with
  | zero => exact fun cs h _ => absurd h (Nat.not_lt_zero _)
  | succ fuel ih =>
    intro cs hlen hnn
    cases cs with
    | nil => rfl
    | cons c cs =>
      unfold pySubRcAux cutAtFirstRc
      by_cases h : (("-rc").data).isPrefixOf (c :: cs) = true
      · rw [if_pos h, if_pos h]
        have hdw : (cs.drop 2).dropWhile (fun ch => ch != '\n') = [] := by
          apply dropWhile_all
          intro x hx
          have : x ≠ '\n' :=
            hnn x (List.mem_cons_of_mem _ (List.mem_of_mem_drop hx))
          simpa using this
        rw [hdw]
        cases fuel <;> rfl
      · rw [if_neg (by simpa using h), if_neg (by simpa using h)]
        have hlen2 : cs.length < fuel := by
          simp only [List.length_cons] at hlen
          omega
        rw [ih cs hlen2 (fun x hx => hnn x (List.mem_cons_of_mem _ hx))]

theorem pySubRc_no_newline {cs : List Char} (h : ∀ c ∈ cs, c ≠ '\n') :
    pySubRc cs = cutAtFirstRc cs :=
  pySubRcAux_no_newline (cs.length + 1) cs (Nat.lt_succ_self _) h

/-- C2: every failure raised inside either orchestrator path is caught by
main, which exits with status 0 — but the program as a whole never gets
there: the module body of rc_align.py evaluates the undefined bare name e
on line 15, so every process run dies with NameError and exit status 1
before main is reached, emitting nothing. -/
theorem c2_fail_open_and_module_crash :
    (∀ env : GitEnv, (main env).1 = 0)
    ∧ programRun ⟨some ("main"), .ok none, .ok none, .ok none, .ok ()⟩ = (1, [])
    ∧ (1 : Nat) ≠ 0 := by
  refine ⟨?_, by decide, by decide⟩
  intro env
  unfold main
  split
  · rcases h : stablePromotionBody env with msg | lines <;> simp [h]
  · rcases h : rcBody env with msg | lines <;> simp [h]

/-- C8: on the release-candidate path, when the computed depth is 0 the
run terminates successfully and appends nothing to the output sink. -/
theorem c8_depth_zero_silent (env : GitEnv) (t subj : Option String)
    (hbr : ¬ (env.branch = some ("main") ∨ env.branch = some ("master")))
    (ht : env.tagsResult = .ok t)
    (hsubj : env.subjectsResult = .ok subj)
    (hdepth : get_commit_depth subj = 0) :
    main env = (0, []) := by
  obtain ⟨r, hr⟩ := find_baseline_tag_ok t
  have hbody : rcBody env = .ok [] := by
    unfold rcBody
    rw [ht, hr, hsubj]
    simp [hdepth]
  unfold main
  rw [if_neg hbr, hbody]

/-- C8 witness: a baseline exists but the only commit since it is a
release-automation commit, so the depth is 0 and the run emits nothing. -/
theorem c8_witness :
    main ⟨some ("next"), .ok (some ("v1.0.0")),
        .ok (some ("chore(main): release v1.0.0")), .ok none, .ok ()⟩ = (0, []) :=
  c8_depth_zero_silent _ (some ("v1.0.0")) (some ("chore(main): release v1.0.0"))
    (by decide) rfl rfl (by decide)

/-- C10: on the stable-promotion path with a non-absent (non-empty)
baseline tag, the emitted version is exactly the tag with everything from
the first occurrence of -rc onward deleted and all leading v characters
stripped; no shape validation happens on this path. -/
theorem c10_stable_promotion (env : GitEnv) (s : String)
    (hbr : env.branch = some ("main") ∨ env.branch = some ("master"))
    (ht : env.tagsResult = .ok (some s))
    (hne : firstLine s.data ≠ [])
    (hsink : env.outputSink = .ok ()) :
    main env
      = (0, ["next_version=" ++ String.mk (lstripV (cutAtFirstRc (firstLine s.data)))]) := by
  obtain ⟨cs⟩ := s
  have hfb : ∃ b, find_baseline_tag (.ok (some (String.mk cs)))
      = .ok (some (String.mk (firstLine cs)), b) := by
    cases cs with
    | nil => exact absurd rfl hne
    | cons c cs =>
      unfold find_baseline_tag
      by_cases h : occurs (("-rc").data) (firstLine (c :: cs)) = true
      · exact ⟨false, by simp [h]⟩
      · exact ⟨true, by simp [h]⟩
  obtain ⟨b, hfb⟩ := hfb
  have hsub : pySubRc (firstLine cs) = cutAtFirstRc (firstLine cs) :=
    pySubRc_no_newline (firstLine_no_newline cs)
  have hbody : stablePromotionBody env
      = .ok ["next_version=" ++ String.mk (lstripV (cutAtFirstRc (firstLine cs)))] := by
    unfold stablePromotionBody
    rw [ht, hfb, hsink]
    simp only [if_neg hne]
    rw [hsub]
  unfold main
  rw [if_pos hbr, hbody]

/-- C10 witness: the odd tag vv1.2.3 passes the glob, is not validated,
and is emitted with every leading v stripped. -/
theorem c10_witness :
    main ⟨some ("main"), .ok (some ("vv1.2.3")), .ok none, .ok none, .ok ()⟩
      = (0, ["next_version=1.2.3"]) :=
  (c10_stable_promotion _ ("vv1.2.3") (by decide) rfl (by decide) rfl).trans (by decide)

end RcAlign
